import Mathlib

/-!
Verification of the PAZI_LW2 file-encryption tool (src/main.cpp).

The program encrypts or decrypts one file with AES-256-CBC; the key is
derived from a password with PBKDF2-HMAC-SHA1 (fixed salt "12345678",
10000 iterations, 32-byte key), and the 16-byte IV is stored as a prefix
of the ciphertext container.

Shallow embedding conventions:
* bytes are `Nat` (values < 256 where it matters), byte strings are `List Nat`;
* the AES-256 block permutation itself lives in OpenSSL, outside this
  repository, so `encryptDataWithIV` / `decryptDataWithIV` are parametrised
  by an abstract keyed block cipher `AESenc / AESdec : key → block → block`;
  the CBC chaining and PKCS#7 padding that `EVP_aes_256_cbc` performs are
  modelled explicitly, following the EVP contract;
* PBKDF2-HMAC-SHA1 is modelled in full (RFC 3174 SHA-1, RFC 2104 HMAC,
  RFC 2898 PBKDF2) because the key-derivation claims depend on its inner
  structure;
* `handleErrors` calls `abort()`; outcomes of `decryptDataWithIV` are an
  explicit `DecOutcome`, with a dedicated constructor for the
  out-of-range read the C++ performs on inputs shorter than 16 bytes
  (undefined behaviour in the source).
-/

namespace PaziLW2

/-- `AES_BLOCK_SIZE` from main.cpp line 12. -/
def AES_BLOCK_SIZE : Nat := 16

/-- `AES_KEY_LENGTH` from main.cpp line 11. -/
def AES_KEY_LENGTH : Nat := 32

/-- Byte-wise xor of two equal-length byte strings (CBC chaining step). -/
def xorB (a b : List Nat) : List Nat := List.zipWith (· ^^^ ·) a b

/-- Split into consecutive 16-byte blocks; structural recursion on a fuel
bound (any fuel at least the list length gives the same result). -/
def toBlocksAux : Nat → List Nat → List (List Nat)
  | _, [] => []
  | 0, _ :: _ => []
  | fuel + 1, a :: l => (a :: l).take 16 :: toBlocksAux fuel ((a :: l).drop 16)

/-- Split a byte string into consecutive 16-byte blocks. -/
def toBlocks (l : List Nat) : List (List Nat) := toBlocksAux l.length l

/-- PKCS#7 padding as applied by `EVP_EncryptUpdate`/`EVP_EncryptFinal_ex`
for a 16-byte block cipher: append `k = 16 - n % 16` bytes of value `k`. -/
def pkcs7pad (p : List Nat) : List Nat :=
  p ++ List.replicate (16 - p.length % 16) (16 - p.length % 16)

/-- PKCS#7 padding check and removal as performed by `EVP_DecryptFinal_ex`:
the last byte `k` must satisfy `1 ≤ k ≤ 16`, and the last `k` bytes must all
equal `k`; otherwise the padding is malformed. -/
def pkcs7unpad (d : List Nat) : Option (List Nat) :=
  match d.getLast? with
  | none => none
  | some k =>
    if 1 ≤ k ∧ k ≤ 16 ∧ k ≤ d.length ∧ (d.drop (d.length - k)).all (· = k)
    then some (d.take (d.length - k))
    else none

/-- CBC encryption of a list of 16-byte blocks: each ciphertext block is
`E(prev ⊕ plainBlock)` where `prev` starts at the IV. -/
def cbcEnc (E : List Nat → List Nat) : List Nat → List (List Nat) → List (List Nat)
  | _, [] => []
  | prev, b :: bs =>
    let c := E (xorB prev b)
    c :: cbcEnc E c bs

/-- CBC decryption of a list of 16-byte blocks: each plaintext block is
`prev ⊕ D(cipherBlock)` where `prev` starts at the IV. -/
def cbcDec (D : List Nat → List Nat) : List Nat → List (List Nat) → List (List Nat)
  | _, [] => []
  | prev, c :: cs => xorB prev (D c) :: cbcDec D c cs

/-- main.cpp lines 80-112, `encryptDataWithIV`: AES-256-CBC encrypt
`plaintext` (the EVP pipeline pads with PKCS#7 and chains in CBC mode with
the abstract per-key block cipher `AESenc key`), then prepend the IV
(lines 107-109: `result = iv ++ ciphertext`). -/
def encryptDataWithIV (AESenc : List Nat → List Nat → List Nat)
    (plaintext key iv : List Nat) : List Nat :=
  iv ++ (cbcEnc (AESenc key) iv (toBlocks (pkcs7pad plaintext))).flatten

/-- Container packing, main.cpp lines 106-109: the IV followed by the
ciphertext body. -/
def pack (iv ciphertext : List Nat) : List Nat := iv ++ ciphertext

/-- Container unpacking as `decryptDataWithIV` performs it: the IV is the
first 16 bytes (line 125), the ciphertext body is the rest (line 144). -/
def unpack (data : List Nat) : List Nat × List Nat :=
  (data.take AES_BLOCK_SIZE, data.drop AES_BLOCK_SIZE)

/-- Possible outcomes of `decryptDataWithIV` in the source. -/
inductive DecOutcome where
  /-- Decryption succeeded and returned a plaintext. -/
  | ok (plaintext : List Nat) : DecOutcome
  /-- `EVP_DecryptFinal_ex` failed (bad padding or a ragged final block),
  so `handleErrors()` runs: `abort()` at line 21, a non-zero termination. -/
  | abortBadPadding : DecOutcome
  /-- The input is shorter than 16 bytes: line 125 copies
  `ciphertext.begin() + 16` past the end of the buffer, and line 140/144
  compute `ciphertext.size() - 16` with unsigned underflow. The C++
  behaviour is undefined; this constructor marks that case. -/
  | undefinedBehavior : DecOutcome
deriving DecidableEq, Repr

/-- The body fed to the cipher after the IV prefix is removed, CBC-decrypted
with the per-key block cipher `AESdec key` and left still padded. -/
def cbcDecryptPadded (AESdec : List Nat → List Nat → List Nat)
    (key iv body : List Nat) : List Nat :=
  (cbcDec (AESdec key) iv (toBlocks body)).flatten

/-- main.cpp lines 123-159, `decryptDataWithIV`: read the IV from the first
16 bytes of the input (line 125 — with no length check, so a shorter input
makes the copy read out of range: undefined behaviour), CBC-decrypt the rest
and strip the PKCS#7 padding; `EVP_DecryptFinal_ex` failure (ragged final
block or malformed padding) reaches `handleErrors()` which aborts. -/
def decryptDataWithIV (AESdec : List Nat → List Nat → List Nat)
    (ciphertext key : List Nat) : DecOutcome :=
  if ciphertext.length < AES_BLOCK_SIZE then .undefinedBehavior
  else
    let iv := (unpack ciphertext).1
    let body := (unpack ciphertext).2
    if body.length % 16 = 0 then
      match pkcs7unpad (cbcDecryptPadded AESdec key iv body) with
      | some pt => .ok pt
      | none => .abortBadPadding
    else .abortBadPadding

/-! ### Key derivation: PBKDF2-HMAC-SHA1 (OpenSSL `PKCS5_PBKDF2_HMAC_SHA1`)

The primitive is library code; it is modelled in full from its standards
(RFC 3174 SHA-1, RFC 2104 HMAC, RFC 2898 PBKDF2) because the claims about
`generateKeyFromPassword` depend on its structure. -/

/-- Truncate to a 32-bit word. -/
def w32 (n : Nat) : Nat := n % 4294967296

/-- 32-bit left rotation by `s`. -/
def rotl (s n : Nat) : Nat := w32 ((n <<< s) ||| (n >>> (32 - s)))

/-- The 8-byte big-endian encoding of `n` (SHA-1 length field). -/
def be8 (n : Nat) : List Nat :=
  [(n >>> 56) % 256, (n >>> 48) % 256, (n >>> 40) % 256, (n >>> 32) % 256,
   (n >>> 24) % 256, (n >>> 16) % 256, (n >>> 8) % 256, n % 256]

/-- SHA-1 message padding: a `0x80` byte, zeros to 56 mod 64, then the
bit length as 8 big-endian bytes. -/
def sha1PadMsg (msg : List Nat) : List Nat :=
  msg ++ 128 :: List.replicate ((119 - msg.length % 64) % 64) 0 ++ be8 (8 * msg.length)

/-- Big-endian 32-bit words from bytes, four at a time. -/
def bytesToWords : List Nat → List Nat
  | a :: b :: c :: d :: rest =>
    ((a <<< 24) ||| (b <<< 16) ||| (c <<< 8) ||| d) :: bytesToWords rest
  | _ => []

/-- Split into consecutive 64-byte SHA-1 blocks; structural recursion on a
fuel bound. -/
def toBlocks64Aux : Nat → List Nat → List (List Nat)
  | _, [] => []
  | 0, _ :: _ => []
  | fuel + 1, a :: l => (a :: l).take 64 :: toBlocks64Aux fuel ((a :: l).drop 64)

/-- Split a byte string into consecutive 64-byte SHA-1 blocks. -/
def toBlocks64 (l : List Nat) : List (List Nat) := toBlocks64Aux l.length l

/-- One step of the SHA-1 message-schedule expansion:
`W[t] = rotl1 (W[t-3] ^ W[t-8] ^ W[t-14] ^ W[t-16])`. -/
def sha1ExtendStep (ws : List Nat) : List Nat :=
  let n := ws.length
  ws ++ [rotl 1 (((ws.getD (n - 3) 0) ^^^ (ws.getD (n - 8) 0)) ^^^
                 ((ws.getD (n - 14) 0) ^^^ (ws.getD (n - 16) 0)))]

/-- Apply the schedule-expansion step `k` times (64 times: 16 → 80 words). -/
def sha1Extend : Nat → List Nat → List Nat
  | 0, ws => ws
  | k + 1, ws => sha1Extend k (sha1ExtendStep ws)

/-- The SHA-1 round function `f_t`. -/
def sha1f (t b c d : Nat) : Nat :=
  if t < 20 then (b &&& c) ||| ((b ^^^ 4294967295) &&& d)
  else if t < 40 then (b ^^^ c) ^^^ d
  else if t < 60 then ((b &&& c) ||| (b &&& d)) ||| (c &&& d)
  else (b ^^^ c) ^^^ d

/-- The SHA-1 round constant `K_t`. -/
def sha1K (t : Nat) : Nat :=
  if t < 20 then 1518500249
  else if t < 40 then 1859775393
  else if t < 60 then 2400959708
  else 3395469782

/-- The five 32-bit SHA-1 working registers. -/
def Sha1State := Nat × Nat × Nat × Nat × Nat

/-- One SHA-1 round on the working registers. -/
def sha1Round (W : List Nat) (st : Sha1State) (t : Nat) : Sha1State :=
  match st with
  | (a, b, c, d, e) =>
    (w32 (rotl 5 a + sha1f t b c d + e + sha1K t + W.getD t 0), a, rotl 30 b, c, d)

/-- The SHA-1 compression function on one 64-byte block. -/
def sha1Compress (h : Sha1State) (block : List Nat) : Sha1State :=
  let W := sha1Extend 64 (bytesToWords block)
  match h, (List.range 80).foldl (sha1Round W) h with
  | (h0, h1, h2, h3, h4), (a, b, c, d, e) =>
    (w32 (h0 + a), w32 (h1 + b), w32 (h2 + c), w32 (h3 + d), w32 (h4 + e))

/-- The SHA-1 initial state. -/
def sha1Init : Sha1State :=
  (1732584193, 4023233417, 2562383102, 271733878, 3285377520)

/-- The 4 big-endian bytes of a 32-bit word. -/
def wordBytes (w : Nat) : List Nat :=
  [(w >>> 24) % 256, (w >>> 16) % 256, (w >>> 8) % 256, w % 256]

/-- Serialize the five SHA-1 registers as a 20-byte digest. -/
def sha1Out : Sha1State → List Nat
  | (a, b, c, d, e) =>
    wordBytes a ++ wordBytes b ++ wordBytes c ++ wordBytes d ++ wordBytes e

/-- SHA-1 of a byte string (RFC 3174). -/
def sha1 (msg : List Nat) : List Nat :=
  sha1Out ((toBlocks64 (sha1PadMsg msg)).foldl sha1Compress sha1Init)

/-- HMAC-SHA1 (RFC 2104): a key longer than the 64-byte block size is first
replaced by its SHA-1 digest, then zero-padded to 64 bytes. -/
def hmacSha1 (key msg : List Nat) : List Nat :=
  let k0 := if 64 < key.length then sha1 key else key
  let kp := k0 ++ List.replicate (64 - k0.length) 0
  sha1 ((kp.map (· ^^^ 92)) ++ sha1 ((kp.map (· ^^^ 54)) ++ msg))

/-- The 4-byte big-endian block index of PBKDF2. -/
def be4 (n : Nat) : List Nat :=
  [(n >>> 24) % 256, (n >>> 16) % 256, (n >>> 8) % 256, n % 256]

/-- The iterated-xor loop of PBKDF2's `F`: `c` further iterations
`U_{j+1} = PRF(pw, U_j)`, xor-accumulated into `acc`. -/
def pbkdf2Iter (pw : List Nat) : Nat → List Nat → List Nat → List Nat
  | 0, _, acc => acc
  | c + 1, u, acc =>
    let u2 := hmacSha1 pw u
    pbkdf2Iter pw c u2 (xorB acc u2)

/-- PBKDF2's block function `F(pw, salt, c, i) = U_1 ^ U_2 ^ ... ^ U_c`
with `U_1 = PRF(pw, salt ‖ BE32(i))`. -/
def pbkdf2F (pw salt : List Nat) (c i : Nat) : List Nat :=
  let u1 := hmacSha1 pw (salt ++ be4 i)
  pbkdf2Iter pw (c - 1) u1 u1

/-- PBKDF2 with HMAC-SHA1 as PRF (RFC 2898): concatenate
`F(pw, salt, c, 1), F(pw, salt, c, 2), ...` and keep `dkLen` bytes. -/
def pbkdf2HmacSha1 (pw salt : List Nat) (c dkLen : Nat) : List Nat :=
  (((List.range ((dkLen + 19) / 20)).map (fun j => pbkdf2F pw salt c (j + 1))).flatten).take dkLen

/-- main.cpp lines 31-36, `generateKeyFromPassword`: PBKDF2-HMAC-SHA1 with
the fixed 8-byte salt `"12345678"` (bytes 49..56), 10000 iterations, and a
32-byte output key. -/
def generateKeyFromPassword (password : List Nat) : List Nat :=
  pbkdf2HmacSha1 password [49, 50, 51, 52, 53, 54, 55, 56] 10000 AES_KEY_LENGTH

/-! ### Command-line handling and orchestration (main.cpp lines 181-251)

File paths and the password are byte strings (`std::string` holds bytes),
modelled as `List Nat`. -/

/-- One command-line option as delivered by a `getopt(argc, argv, "edi:o:p:")`
call (line 187): `-e`, `-d`, one of `-i`/`-o`/`-p` with its argument
(`optarg`), or an unrecognized option / missing argument, for which
`getopt` yields `?` and the loop takes the `default` branch (line 204). -/
inductive Opt where
  | e : Opt
  | d : Opt
  | i (value : List Nat) : Opt
  | o (value : List Nat) : Opt
  | p (value : List Nat) : Opt
  | unknown : Opt
deriving DecidableEq, Repr

/-- The variables filled by the getopt loop (lines 183-184). -/
structure Args where
  encrypt : Bool
  decrypt : Bool
  inputFile : List Nat
  outputFile : List Nat
  password : List Nat
deriving DecidableEq, Repr

/-- Initial state: both mode flags false, all strings empty (lines 183-184). -/
def initArgs : Args := ⟨false, false, [], [], []⟩

/-- The getopt loop (lines 187-208): each option updates the state; the
`default` branch for an unrecognized option prints usage and returns 1,
modelled as `none`. -/
def parseOpts : Args → List Opt → Option Args
  | a, [] => some a
  | a, Opt.e :: r => parseOpts { a with encrypt := true } r
  | a, Opt.d :: r => parseOpts { a with decrypt := true } r
  | a, Opt.i v :: r => parseOpts { a with inputFile := v } r
  | a, Opt.o v :: r => parseOpts { a with outputFile := v } r
  | a, Opt.p v :: r => parseOpts { a with password := v } r
  | _, Opt.unknown :: _ => none

/-- The validation at line 210:
`(encrypt && decrypt) || (!encrypt && !decrypt) || inputFile.empty() ||
outputFile.empty() || password.empty()`. -/
def argsInvalid (a : Args) : Bool :=
  (a.encrypt && a.decrypt) || (!a.encrypt && !a.decrypt)
  || a.inputFile.isEmpty || a.outputFile.isEmpty || a.password.isEmpty

/-- `true` exactly when `main` prints the usage text and returns 1: either
the getopt loop hit its `default` branch (lines 204-207) or the validation
at line 210 failed (lines 210-213). -/
def mainArgCheck (opts : List Opt) : Bool :=
  match parseOpts initArgs opts with
  | none => true
  | some a => argsInvalid a

/-- Whether `-e` occurs among the options. -/
def containsE : List Opt → Bool
  | [] => false
  | Opt.e :: _ => true
  | _ :: r => containsE r

/-- Whether `-d` occurs among the options. -/
def containsD : List Opt → Bool
  | [] => false
  | Opt.d :: _ => true
  | _ :: r => containsD r

/-- Whether no unrecognized option occurs. -/
def noUnknownOpt : List Opt → Bool
  | [] => true
  | Opt.unknown :: _ => false
  | _ :: r => noUnknownOpt r

/-- Fold step recording the latest `-i` value. -/
def updIn (s : List Nat) (o : Opt) : List Nat :=
  match o with
  | Opt.i v => v
  | _ => s

/-- Fold step recording the latest `-o` value. -/
def updOut (s : List Nat) (o : Opt) : List Nat :=
  match o with
  | Opt.o v => v
  | _ => s

/-- Fold step recording the latest `-p` value. -/
def updPw (s : List Nat) (o : Opt) : List Nat :=
  match o with
  | Opt.p v => v
  | _ => s

/-- The value the `-i` flag ends up with (last occurrence wins, empty if
never given). -/
def finalIValue (opts : List Opt) : List Nat := opts.foldl updIn []

/-- The value the `-o` flag ends up with. -/
def finalOValue (opts : List Opt) : List Nat := opts.foldl updOut []

/-- The value the `-p` flag ends up with. -/
def finalPValue (opts : List Opt) : List Nat := opts.foldl updPw []

/-- Modelled from the spec's words for the amended argument-validation
claim: usage is printed and the program exits 1 exactly when some option is
unrecognized, or `-e`/`-d` are both present or both absent, or the final
value of `-i`, `-o` or `-p` is empty. (Duplicate occurrences of a flag are
not by themselves rejected.) -/
def specUsageExit (opts : List Opt) : Bool :=
  !noUnknownOpt opts || (containsE opts == containsD opts)
  || (finalIValue opts).isEmpty || (finalOValue opts).isEmpty
  || (finalPValue opts).isEmpty

/-- Terminal outcomes of one `main` invocation, tracking whether the output
file was written. -/
inductive MainOutcome where
  /-- Usage printed, `return 1` (lines 204-213); no output written. -/
  | usageExit : MainOutcome
  /-- `readFile` could not open the input: `exit(1)` at line 49, before any
  output is written. -/
  | readErrorExit : MainOutcome
  /-- `handleErrors()` reached during the transform: `abort()` (line 21),
  non-zero termination, before `writeFile` at line 246. -/
  | abortNoWrite : MainOutcome
  /-- The undefined-behaviour decrypt path (input shorter than 16 bytes);
  no defined write of the output. -/
  | undefinedNoWrite : MainOutcome
  /-- The transform completed and `writeFile` wrote `data` (line 246),
  then `return 0`. -/
  | wroteOutput (data : List Nat) : MainOutcome
deriving DecidableEq, Repr

/-- `main`, lines 181-251: parse and validate arguments, derive the key
(line 219), read the input (line 222, `none` models an unreadable file:
`exit(1)` before anything is written), run the selected transform
(lines 226-243) and only then write the output (line 246). `iv` is the
`RAND_bytes` output used in encrypt mode (line 228). -/
def mainRun (AESenc AESdec : List Nat → List Nat → List Nat)
    (opts : List Opt) (inputData : Option (List Nat)) (iv : List Nat) :
    MainOutcome :=
  if mainArgCheck opts then .usageExit
  else
    let a := (parseOpts initArgs opts).getD initArgs
    let key := generateKeyFromPassword a.password
    match inputData with
    | none => .readErrorExit
    | some fileData =>
      if a.encrypt then .wroteOutput (encryptDataWithIV AESenc fileData key iv)
      else
        match decryptDataWithIV AESdec fileData key with
        | .ok pt => .wroteOutput pt
        | .abortBadPadding => .abortNoWrite
        | .undefinedBehavior => .undefinedNoWrite

/-- Whether a decrypt outcome is the `handleErrors()` path: `abort()`
raises `SIGABRT`, so the process terminates with a non-zero status and
returns no plaintext. -/
def DecOutcome.abortsProcess : DecOutcome → Bool
  | .abortBadPadding => true
  | _ => false

/-! ### Helper lemmas: xor, blocks, padding -/

theorem xorB_length (a b : List Nat) : (xorB a b).length = min a.length b.length := by
  simp [xorB]

theorem xorB_cancel : ∀ a b : List Nat, a.length = b.length → xorB a (xorB a b) = b := by
  intro a
  induction a with
  | nil =>
    intro b h
    have hb : b = [] := List.length_eq_zero.mp h.symm
    subst hb
    rfl
  | cons x xs ih =>
    intro b h
    cases b with
    | nil => simp at h
    | cons y ys =>
      have h' : xs.length = ys.length := by simpa using h
      show (x ^^^ (x ^^^ y)) :: xorB xs (xorB xs ys) = y :: ys
      rw [Nat.xor_cancel_left, ih ys h']

theorem toBlocksAux_congr : ∀ f g : Nat, ∀ l : List Nat,
    l.length ≤ f → l.length ≤ g → toBlocksAux f l = toBlocksAux g l := by
  intro f
  induction f with
  | zero =>
    intro g l hf _
    have hl : l = [] := List.length_eq_zero.mp (by omega)
    subst hl
    cases g <;> rfl
  | succ f ih =>
    intro g l hf hg
    cases l with
    | nil => cases g <;> rfl
    | cons a t =>
      cases g with
      | zero => simp at hg
      | succ g =>
        show (a :: t).take 16 :: toBlocksAux f ((a :: t).drop 16)
           = (a :: t).take 16 :: toBlocksAux g ((a :: t).drop 16)
        congr 1
        apply ih
        · simp only [List.length_drop, List.length_cons]
          simp only [List.length_cons] at hf
          omega
        · simp only [List.length_drop, List.length_cons]
          simp only [List.length_cons] at hg
          omega

theorem toBlocks_nil : toBlocks [] = [] := rfl

theorem toBlocks_cons (l : List Nat) (h : l ≠ []) :
    toBlocks l = l.take 16 :: toBlocks (l.drop 16) := by
  cases l with
  | nil => exact absurd rfl h
  | cons a t =>
    show (a :: t).take 16 :: toBlocksAux t.length ((a :: t).drop 16)
       = (a :: t).take 16 :: toBlocksAux ((a :: t).drop 16).length ((a :: t).drop 16)
    congr 1
    apply toBlocksAux_congr
    · simp only [List.length_drop, List.length_cons]
      omega
    · exact Nat.le_refl _

theorem toBlocks_append (b rest : List Nat) (hb : b.length = 16) :
    toBlocks (b ++ rest) = b :: toBlocks rest := by
  have hne : b ++ rest ≠ [] := by
    intro hcontra
    have := congrArg List.length hcontra
    simp [hb] at this
  rw [toBlocks_cons _ hne, List.take_left' hb, List.drop_left' hb]

theorem toBlocks_spec_aux : ∀ n : Nat, ∀ l : List Nat, l.length ≤ n → l.length % 16 = 0 →
    (∀ b ∈ toBlocks l, b.length = 16) ∧ (toBlocks l).flatten = l := by
  intro n
  induction n with
  | zero =>
    intro l hle _
    have hl : l = [] := List.length_eq_zero.mp (by omega)
    subst hl
    simp [toBlocks_nil]
  | succ n ih =>
    intro l hle hmod
    by_cases h : l = []
    · subst h
      simp [toBlocks_nil]
    · have hpos : 0 < l.length := List.length_pos.mpr h
      have h16 : 16 ≤ l.length := by omega
      have htake : (l.take 16).length = 16 := by
        simp only [List.length_take]
        omega
      have hdrop : (l.drop 16).length = l.length - 16 := List.length_drop 16 l
      obtain ⟨ih1, ih2⟩ := ih (l.drop 16) (by omega) (by omega)
      rw [toBlocks_cons l h]
      constructor
      · intro b hb
        rcases List.mem_cons.mp hb with rfl | hb'
        · exact htake
        · exact ih1 b hb'
      · show l.take 16 ++ (toBlocks (l.drop 16)).flatten = l
        rw [ih2, List.take_append_drop]

theorem toBlocks_spec (l : List Nat) (hmod : l.length % 16 = 0) :
    (∀ b ∈ toBlocks l, b.length = 16) ∧ (toBlocks l).flatten = l :=
  toBlocks_spec_aux l.length l (Nat.le_refl _) hmod

theorem toBlocks_flatten16 : ∀ bs : List (List Nat), (∀ b ∈ bs, b.length = 16) →
    toBlocks bs.flatten = bs := by
  intro bs
  induction bs with
  | nil => intro; rfl
  | cons b t ih =>
    intro h
    rw [List.flatten_cons, toBlocks_append b _ (h b (List.mem_cons_self _ _)),
      ih (fun x hx => h x (List.mem_cons_of_mem _ hx))]

theorem flatten16_length : ∀ bs : List (List Nat), (∀ b ∈ bs, b.length = 16) →
    bs.flatten.length = 16 * bs.length := by
  intro bs
  induction bs with
  | nil => intro; rfl
  | cons b t ih =>
    intro h
    have hb : b.length = 16 := h b (List.mem_cons_self _ _)
    have ht := ih (fun x hx => h x (List.mem_cons_of_mem _ hx))
    simp only [List.flatten_cons, List.length_append, List.length_cons, hb, ht]
    ring

theorem cbcEnc_length (E : List Nat → List Nat) :
    ∀ (bs : List (List Nat)) (prev : List Nat), (cbcEnc E prev bs).length = bs.length := by
  intro bs
  induction bs with
  | nil => intro prev; rfl
  | cons b t ih =>
    intro prev
    show (E (xorB prev b) :: cbcEnc E (E (xorB prev b)) t).length = t.length + 1
    simp [ih]

theorem cbcEnc_all16 (E : List Nat → List Nat)
    (hE : ∀ b : List Nat, b.length = 16 → (E b).length = 16) :
    ∀ (bs : List (List Nat)) (prev : List Nat), prev.length = 16 →
      (∀ b ∈ bs, b.length = 16) → ∀ c ∈ cbcEnc E prev bs, c.length = 16 := by
  intro bs
  induction bs with
  | nil => intro prev _ _ c hc; simp [cbcEnc] at hc
  | cons b t ih =>
    intro prev hprev hall c hc
    have hb : b.length = 16 := hall b (List.mem_cons_self _ _)
    have hx : (xorB prev b).length = 16 := by
      simp [xorB_length, hprev, hb]
    have hc1 : (E (xorB prev b)).length = 16 := hE _ hx
    have hc' : c = E (xorB prev b) ∨ c ∈ cbcEnc E (E (xorB prev b)) t :=
      List.mem_cons.mp hc
    rcases hc' with rfl | hmem
    · exact hc1
    · exact ih (E (xorB prev b)) hc1 (fun x hx' => hall x (List.mem_cons_of_mem _ hx')) c hmem

theorem cbcDec_cbcEnc (E D : List Nat → List Nat)
    (hE : ∀ b : List Nat, b.length = 16 → (E b).length = 16)
    (hDE : ∀ b : List Nat, b.length = 16 → D (E b) = b) :
    ∀ (bs : List (List Nat)) (prev : List Nat), prev.length = 16 →
      (∀ b ∈ bs, b.length = 16) → cbcDec D prev (cbcEnc E prev bs) = bs := by
  intro bs
  induction bs with
  | nil => intro prev _ _; rfl
  | cons b t ih =>
    intro prev hprev hall
    have hb : b.length = 16 := hall b (List.mem_cons_self _ _)
    have hx : (xorB prev b).length = 16 := by
      simp [xorB_length, hprev, hb]
    show xorB prev (D (E (xorB prev b)))
        :: cbcDec D (E (xorB prev b)) (cbcEnc E (E (xorB prev b)) t) = b :: t
    rw [hDE _ hx, xorB_cancel prev b (by rw [hprev, hb]),
      ih _ (hE _ hx) (fun x hx' => hall x (List.mem_cons_of_mem _ hx'))]

theorem pkcs7pad_length (p : List Nat) :
    (pkcs7pad p).length = (p.length / 16 + 1) * 16 := by
  simp only [pkcs7pad, List.length_append, List.length_replicate]
  omega

theorem pkcs7pad_mod (p : List Nat) : (pkcs7pad p).length % 16 = 0 := by
  rw [pkcs7pad_length]
  omega

theorem getLast?_replicate_self (k : Nat) (hk : 1 ≤ k) :
    (List.replicate k k).getLast? = some k := by
  cases k with
  | zero => omega
  | succ j => rw [List.replicate_succ', List.getLast?_concat]

theorem pkcs7unpad_of_getLast (d : List Nat) (k : Nat) (h : d.getLast? = some k) :
    pkcs7unpad d =
      if 1 ≤ k ∧ k ≤ 16 ∧ k ≤ d.length ∧ (d.drop (d.length - k)).all (· = k)
      then some (d.take (d.length - k))
      else none := by
  unfold pkcs7unpad
  rw [h]

theorem pkcs7unpad_pad (p : List Nat) : pkcs7unpad (pkcs7pad p) = some p := by
  have hk1 : 1 ≤ 16 - p.length % 16 := by omega
  have hk16 : 16 - p.length % 16 ≤ 16 := by omega
  have hlen : (pkcs7pad p).length = p.length + (16 - p.length % 16) := by
    simp [pkcs7pad]
  have hlast : (pkcs7pad p).getLast? = some (16 - p.length % 16) := by
    rw [pkcs7pad, List.getLast?_append, getLast?_replicate_self _ hk1]
    rfl
  have hsub : (pkcs7pad p).length - (16 - p.length % 16) = p.length := by omega
  rw [pkcs7unpad_of_getLast _ _ hlast, if_pos, hsub]
  · rw [pkcs7pad, List.take_left]
  · refine ⟨hk1, hk16, by omega, ?_⟩
    rw [hsub, pkcs7pad, List.drop_left]
    simp [List.all_eq_true, List.mem_replicate]

theorem unpack_pack (iv ct : List Nat) (hiv : iv.length = 16) :
    unpack (pack iv ct) = (iv, ct) := by
  simp [unpack, pack, AES_BLOCK_SIZE, List.take_left' hiv, List.drop_left' hiv]

theorem decrypt_pack (AESdec : List Nat → List Nat → List Nat) (key iv body : List Nat)
    (hiv : iv.length = 16) (hmod : body.length % 16 = 0) :
    decryptDataWithIV AESdec (iv ++ body) key =
      match pkcs7unpad (cbcDecryptPadded AESdec key iv body) with
      | some pt => DecOutcome.ok pt
      | none => DecOutcome.abortBadPadding := by
  have hun : unpack (iv ++ body) = (iv, body) := unpack_pack iv body hiv
  have h1 : ¬ (iv ++ body).length < AES_BLOCK_SIZE := by
    simp only [List.length_append, hiv, AES_BLOCK_SIZE]
    omega
  simp only [decryptDataWithIV, hun, if_neg h1]
  rw [if_pos hmod]

theorem roundtrip_core (AESenc AESdec : List Nat → List Nat → List Nat)
    (key pt iv : List Nat) (hiv : iv.length = 16)
    (hE : ∀ b : List Nat, b.length = 16 → (AESenc key b).length = 16)
    (hDE : ∀ b : List Nat, b.length = 16 → AESdec key (AESenc key b) = b) :
    decryptDataWithIV AESdec (encryptDataWithIV AESenc pt key iv) key
      = DecOutcome.ok pt := by
  obtain ⟨hall, hflat⟩ := toBlocks_spec (pkcs7pad pt) (pkcs7pad_mod pt)
  have hcts : ∀ c ∈ cbcEnc (AESenc key) iv (toBlocks (pkcs7pad pt)), c.length = 16 :=
    cbcEnc_all16 _ hE _ iv hiv hall
  have hmodbody :
      ((cbcEnc (AESenc key) iv (toBlocks (pkcs7pad pt))).flatten).length % 16 = 0 := by
    rw [flatten16_length _ hcts]
    exact Nat.mul_mod_right 16 _
  have hpadded :
      cbcDecryptPadded AESdec key iv
        ((cbcEnc (AESenc key) iv (toBlocks (pkcs7pad pt))).flatten) = pkcs7pad pt := by
    unfold cbcDecryptPadded
    rw [toBlocks_flatten16 _ hcts, cbcDec_cbcEnc _ _ hE hDE _ iv hiv hall, hflat]
  show decryptDataWithIV AESdec
      (iv ++ (cbcEnc (AESenc key) iv (toBlocks (pkcs7pad pt))).flatten) key
      = DecOutcome.ok pt
  rw [decrypt_pack _ _ _ _ hiv hmodbody, hpadded, pkcs7unpad_pad]

theorem encryptDataWithIV_length (AESenc : List Nat → List Nat → List Nat)
    (pt key iv : List Nat) (hiv : iv.length = 16)
    (hE : ∀ b : List Nat, b.length = 16 → (AESenc key b).length = 16) :
    (encryptDataWithIV AESenc pt key iv).length = 16 + (pt.length / 16 + 1) * 16 := by
  obtain ⟨hall, hflat⟩ := toBlocks_spec (pkcs7pad pt) (pkcs7pad_mod pt)
  have hcts := cbcEnc_all16 _ hE _ iv hiv hall
  have h1 : ((cbcEnc (AESenc key) iv (toBlocks (pkcs7pad pt))).flatten).length
      = 16 * (toBlocks (pkcs7pad pt)).length := by
    rw [flatten16_length _ hcts, cbcEnc_length]
  have h2 : 16 * (toBlocks (pkcs7pad pt)).length = (pkcs7pad pt).length := by
    rw [← flatten16_length _ hall, hflat]
  unfold encryptDataWithIV
  rw [List.length_append, hiv, h1, h2, pkcs7pad_length]

/-! ### Helper lemmas: SHA-1, HMAC, PBKDF2 -/

theorem sha1Out_length : ∀ st : Sha1State, (sha1Out st).length = 20 := by
  rintro ⟨a, b, c, d, e⟩
  simp [sha1Out, wordBytes]

theorem sha1_length (m : List Nat) : (sha1 m).length = 20 := by
  unfold sha1
  exact sha1Out_length _

theorem hmacSha1_length (k m : List Nat) : (hmacSha1 k m).length = 20 := by
  unfold hmacSha1
  exact sha1_length _

theorem hmacSha1_longKey (k : List Nat) (hk : 64 < k.length) (m : List Nat) :
    hmacSha1 k m = hmacSha1 (sha1 k) m := by
  have h2 : ¬ 64 < (sha1 k).length := by
    rw [sha1_length]
    omega
  simp only [hmacSha1, if_pos hk, if_neg h2]

theorem pbkdf2Iter_congr (p q : List Nat)
    (h : ∀ m, hmacSha1 p m = hmacSha1 q m) :
    ∀ (c : Nat) (u acc : List Nat), pbkdf2Iter p c u acc = pbkdf2Iter q c u acc := by
  intro c
  induction c with
  | zero => intro u acc; rfl
  | succ c ih =>
    intro u acc
    show pbkdf2Iter p c (hmacSha1 p u) (xorB acc (hmacSha1 p u))
       = pbkdf2Iter q c (hmacSha1 q u) (xorB acc (hmacSha1 q u))
    rw [h u]
    exact ih _ _

theorem pbkdf2F_congr (p q salt : List Nat) (c i : Nat)
    (h : ∀ m, hmacSha1 p m = hmacSha1 q m) :
    pbkdf2F p salt c i = pbkdf2F q salt c i := by
  unfold pbkdf2F
  rw [h, pbkdf2Iter_congr p q h]

theorem pbkdf2_congr (p q salt : List Nat) (c dkLen : Nat)
    (h : ∀ m, hmacSha1 p m = hmacSha1 q m) :
    pbkdf2HmacSha1 p salt c dkLen = pbkdf2HmacSha1 q salt c dkLen := by
  unfold pbkdf2HmacSha1
  have hfun : (fun j => pbkdf2F p salt c (j + 1)) = fun j => pbkdf2F q salt c (j + 1) :=
    funext fun j => pbkdf2F_congr p q salt c (j + 1) h
  rw [hfun]

theorem pbkdf2Iter_length (p : List Nat) :
    ∀ (c : Nat) (u acc : List Nat), acc.length = 20 →
      (pbkdf2Iter p c u acc).length = 20 := by
  intro c
  induction c with
  | zero => intro u acc h; exact h
  | succ c ih =>
    intro u acc h
    show (pbkdf2Iter p c (hmacSha1 p u) (xorB acc (hmacSha1 p u))).length = 20
    exact ih _ _ (by simp [xorB_length, h, hmacSha1_length])

theorem pbkdf2F_length (p salt : List Nat) (c i : Nat) :
    (pbkdf2F p salt c i).length = 20 := by
  unfold pbkdf2F
  exact pbkdf2Iter_length p _ _ _ (hmacSha1_length _ _)

theorem generateKeyFromPassword_length (w : List Nat) :
    (generateKeyFromPassword w).length = 32 := by
  unfold generateKeyFromPassword pbkdf2HmacSha1 AES_KEY_LENGTH
  rw [show (32 + 19) / 20 = 2 from rfl, show List.range 2 = [0, 1] from rfl]
  simp [List.length_take, pbkdf2F_length]

/-! ### Helper lemmas: the getopt loop and validation -/

theorem parseOpts_eq : ∀ (opts : List Opt) (a : Args),
    parseOpts a opts =
      if noUnknownOpt opts
      then some ⟨a.encrypt || containsE opts, a.decrypt || containsD opts,
                 opts.foldl updIn a.inputFile, opts.foldl updOut a.outputFile,
                 opts.foldl updPw a.password⟩
      else none := by
  intro opts
  induction opts with
  | nil =>
    intro a
    simp [parseOpts, noUnknownOpt, containsE, containsD]
  | cons o r ih =>
    intro a
    cases o with
    | e =>
      simp [parseOpts, noUnknownOpt, containsE, containsD, updIn, updOut, updPw, ih]
    | d =>
      simp [parseOpts, noUnknownOpt, containsE, containsD, updIn, updOut, updPw, ih]
    | i v =>
      simp [parseOpts, noUnknownOpt, containsE, containsD, updIn, updOut, updPw, ih]
    | o v =>
      simp [parseOpts, noUnknownOpt, containsE, containsD, updIn, updOut, updPw, ih]
    | p v =>
      simp [parseOpts, noUnknownOpt, containsE, containsD, updIn, updOut, updPw, ih]
    | unknown =>
      simp [parseOpts, noUnknownOpt]

theorem bool_pair_eq (b c : Bool) : ((b && c) || (!b && !c)) = (b == c) := by
  cases b <;> cases c <;> rfl

theorem mainArgCheck_eq_spec (opts : List Opt) : mainArgCheck opts = specUsageExit opts := by
  unfold mainArgCheck specUsageExit finalIValue finalOValue finalPValue
  rw [parseOpts_eq]
  cases hno : noUnknownOpt opts
  · rw [if_neg (by simp [hno])]
    simp
  · rw [if_pos (by simp [hno])]
    simp only [argsInvalid, initArgs, Bool.false_or, Bool.not_true]
    rw [bool_pair_eq]

/-! ### The claims -/

/-- C1: for every plaintext `P`, every 32-byte key `K` and every 16-byte IV,
decrypting the container produced by `encryptDataWithIV` with the same key
recovers `P`. The AES-256 block permutation is abstract: the hypotheses say
that `AESdec K` inverts `AESenc K` on 16-byte blocks and that `AESenc K`
preserves the block length, which is the contract of the OpenSSL primitive. -/
theorem claim_C1 (AESenc AESdec : List Nat → List Nat → List Nat) (P K iv : List Nat)
    (_hK : K.length = 32) (hiv : iv.length = 16)
    (hE : ∀ b : List Nat, b.length = 16 → (AESenc K b).length = 16)
    (hDE : ∀ b : List Nat, b.length = 16 → AESdec K (AESenc K b) = b) :
    decryptDataWithIV AESdec (encryptDataWithIV AESenc P K iv) K = DecOutcome.ok P :=
  roundtrip_core AESenc AESdec K P iv hiv hE hDE

/-- C1 witness: the round trip at a concrete instance (identity block cipher,
plaintext the two bytes of "Hi", all-zero 32-byte key and 16-byte IV). -/
theorem claim_C1_witness :
    decryptDataWithIV (fun _ b => b)
      (encryptDataWithIV (fun _ b => b) [72, 105] (List.replicate 32 0)
        (List.replicate 16 0))
      (List.replicate 32 0) = DecOutcome.ok [72, 105] :=
  claim_C1 (fun _ b => b) (fun _ b => b) [72, 105] (List.replicate 32 0)
    (List.replicate 16 0) (by simp) (by simp) (fun _ hb => hb) (fun _ _ => rfl)

/-- C2 (code bug): on an input shorter than 16 bytes, `decryptDataWithIV`
performs no malformed-container check at all: line 125 copies 16 bytes out
of a shorter buffer (an out-of-range read, undefined behaviour) and
lines 140/144 compute `size() - 16` with unsigned underflow. The claim and
the spec require a distinct `MalformedContainerError` before cipher
initialization; the code instead reaches undefined behaviour, shown here on
a 10-byte input of zeros. -/
theorem claim_C2 (AESdec : List Nat → List Nat → List Nat) (K : List Nat) :
    decryptDataWithIV AESdec (List.replicate 10 0) K = DecOutcome.undefinedBehavior :=
  rfl

/-- C3: the ciphertext body (the container minus its 16-byte IV prefix) has
length `(n / 16 + 1) * 16` for an `n`-byte plaintext; hence a 32-byte
container for an 11-byte plaintext and a 32-byte body for a 16-byte
plaintext. -/
theorem claim_C3 (AESenc : List Nat → List Nat → List Nat) (P K iv : List Nat)
    (hiv : iv.length = 16)
    (hE : ∀ b : List Nat, b.length = 16 → (AESenc K b).length = 16) :
    ((encryptDataWithIV AESenc P K iv).drop 16).length = (P.length / 16 + 1) * 16
    ∧ (P.length = 11 → (encryptDataWithIV AESenc P K iv).length = 32)
    ∧ (P.length = 16 → ((encryptDataWithIV AESenc P K iv).drop 16).length = 32) := by
  have htot := encryptDataWithIV_length AESenc P K iv hiv hE
  have hdrop : ((encryptDataWithIV AESenc P K iv).drop 16).length
      = (P.length / 16 + 1) * 16 := by
    rw [List.length_drop, htot]
    omega
  refine ⟨hdrop, ?_, ?_⟩
  · intro h11
    rw [htot, h11]
  · intro h16
    rw [hdrop, h16]

/-- C3 witness: the body-length formula at a concrete instance (identity
block cipher, 11-byte plaintext): the body is 16 bytes, the container 32. -/
theorem claim_C3_witness :
    ((encryptDataWithIV (fun _ b => b) (List.replicate 11 7) []
        (List.replicate 16 0)).drop 16).length
      = ((List.replicate 11 7).length / 16 + 1) * 16
    ∧ ((List.replicate 11 7).length = 11 →
        (encryptDataWithIV (fun _ b => b) (List.replicate 11 7) []
          (List.replicate 16 0)).length = 32)
    ∧ ((List.replicate 11 7).length = 16 →
        ((encryptDataWithIV (fun _ b => b) (List.replicate 11 7) []
          (List.replicate 16 0)).drop 16).length = 32) :=
  claim_C3 (fun _ b => b) (List.replicate 11 7) [] (List.replicate 16 0)
    (by simp) (fun _ hb => hb)

/-- C5: the container layout is a pure concatenation round trip:
`unpack (pack iv ct) = (iv, ct)` for a 16-byte IV, the first 16 bytes of
the encrypt output are the IV passed in, and the IV that decryption
extracts from a container (the first component of `unpack`, line 125) is
exactly that prefix. -/
theorem claim_C5 (AESenc : List Nat → List Nat → List Nat) (P K iv ct : List Nat)
    (hiv : iv.length = 16) :
    unpack (pack iv ct) = (iv, ct)
    ∧ (encryptDataWithIV AESenc P K iv).take 16 = iv
    ∧ (unpack (encryptDataWithIV AESenc P K iv)).1 = iv := by
  have h2 : (encryptDataWithIV AESenc P K iv).take 16 = iv := by
    unfold encryptDataWithIV
    exact List.take_left' hiv
  exact ⟨unpack_pack iv ct hiv, h2, by simpa [unpack, AES_BLOCK_SIZE] using h2⟩

/-- C5 witness: the container round trip at a concrete instance. -/
theorem claim_C5_witness :
    unpack (pack (List.replicate 16 3) [9, 9, 9]) = (List.replicate 16 3, [9, 9, 9])
    ∧ (encryptDataWithIV (fun _ b => b) [1, 2] [] (List.replicate 16 3)).take 16
        = List.replicate 16 3
    ∧ (unpack (encryptDataWithIV (fun _ b => b) [1, 2] [] (List.replicate 16 3))).1
        = List.replicate 16 3 :=
  claim_C5 (fun _ b => b) [1, 2] [] (List.replicate 16 3) [9, 9, 9] (by simp)

/-- C6: when the padding of the CBC-decrypted data is malformed (the typical
outcome of decrypting with the key derived from a wrong password),
`decryptDataWithIV` reaches `handleErrors()`: the distinct bad-padding abort
outcome, which terminates the process with a non-zero status and never
returns garbage plaintext as success. -/
theorem claim_C6 (AESdec : List Nat → List Nat → List Nat) (ct K : List Nat)
    (hlen : 16 ≤ ct.length)
    (hbad : pkcs7unpad (cbcDecryptPadded AESdec K (unpack ct).1 (unpack ct).2) = none) :
    decryptDataWithIV AESdec ct K = DecOutcome.abortBadPadding
    ∧ (decryptDataWithIV AESdec ct K).abortsProcess = true
    ∧ ∀ pt, decryptDataWithIV AESdec ct K ≠ DecOutcome.ok pt := by
  have h1 : ¬ ct.length < AES_BLOCK_SIZE := by
    simp only [AES_BLOCK_SIZE]
    omega
  have habort : decryptDataWithIV AESdec ct K = DecOutcome.abortBadPadding := by
    simp only [decryptDataWithIV, if_neg h1]
    by_cases hmod : (unpack ct).2.length % 16 = 0
    · rw [if_pos hmod, hbad]
    · rw [if_neg hmod]
  refine ⟨habort, by rw [habort]; rfl, fun pt hok => ?_⟩
  rw [habort] at hok
  exact DecOutcome.noConfusion hok

/-- C6 witness: a 32-byte all-zero container decrypted with the identity
block cipher yields an all-zero final block, whose last byte 0 is not a
valid PKCS#7 padding value, so the abort outcome is reached. -/
theorem claim_C6_witness :
    decryptDataWithIV (fun _ b => b) (List.replicate 32 0) [] = DecOutcome.abortBadPadding
    ∧ (decryptDataWithIV (fun _ b => b) (List.replicate 32 0) []).abortsProcess = true
    ∧ ∀ pt, decryptDataWithIV (fun _ b => b) (List.replicate 32 0) [] ≠ DecOutcome.ok pt :=
  claim_C6 (fun _ b => b) (List.replicate 32 0) [] (by simp) (by decide)

/-- C9: two encryptions of the same plaintext with the same key but distinct
16-byte IVs produce different containers, because the container begins with
the IV itself. -/
theorem claim_C9 (AESenc : List Nat → List Nat → List Nat) (P K iv1 iv2 : List Nat)
    (h1 : iv1.length = 16) (h2 : iv2.length = 16) (hne : iv1 ≠ iv2) :
    encryptDataWithIV AESenc P K iv1 ≠ encryptDataWithIV AESenc P K iv2 := by
  intro h
  apply hne
  have hpre := congrArg (List.take 16) h
  rwa [show (encryptDataWithIV AESenc P K iv1).take 16 = iv1 from by
        unfold encryptDataWithIV
        exact List.take_left' h1,
      show (encryptDataWithIV AESenc P K iv2).take 16 = iv2 from by
        unfold encryptDataWithIV
        exact List.take_left' h2] at hpre

/-- C9 witness: distinct concrete IVs give distinct containers. -/
theorem claim_C9_witness :
    encryptDataWithIV (fun _ b => b) [5] [] (List.replicate 16 0)
      ≠ encryptDataWithIV (fun _ b => b) [5] [] (List.replicate 16 1) :=
  claim_C9 (fun _ b => b) [5] [] (List.replicate 16 0) (List.replicate 16 1)
    (by simp) (by simp) (by decide)

/-- C10: the empty plaintext is supported: encryption of a zero-length input
produces a 32-byte container (16-byte IV plus one full padding block), and
decrypting that container returns the empty byte sequence. -/
theorem claim_C10 (AESenc AESdec : List Nat → List Nat → List Nat) (K iv : List Nat)
    (hiv : iv.length = 16)
    (hE : ∀ b : List Nat, b.length = 16 → (AESenc K b).length = 16)
    (hDE : ∀ b : List Nat, b.length = 16 → AESdec K (AESenc K b) = b) :
    (encryptDataWithIV AESenc [] K iv).length = 32
    ∧ decryptDataWithIV AESdec (encryptDataWithIV AESenc [] K iv) K
        = DecOutcome.ok [] := by
  constructor
  · rw [encryptDataWithIV_length AESenc [] K iv hiv hE]
    rfl
  · exact roundtrip_core AESenc AESdec K [] iv hiv hE hDE

/-- C10 witness: the empty-plaintext round trip at a concrete instance. -/
theorem claim_C10_witness :
    (encryptDataWithIV (fun _ b => b) [] (List.replicate 32 0)
        (List.replicate 16 0)).length = 32
    ∧ decryptDataWithIV (fun _ b => b)
        (encryptDataWithIV (fun _ b => b) [] (List.replicate 32 0)
          (List.replicate 16 0))
        (List.replicate 32 0) = DecOutcome.ok [] :=
  claim_C10 (fun _ b => b) (fun _ b => b) (List.replicate 32 0) (List.replicate 16 0)
    (by simp) (fun _ hb => hb) (fun _ _ => rfl)

/-- C4 (amended): key derivation is a deterministic pure function of the
password alone — every call yields the identical 32-byte key, namely
PBKDF2-HMAC-SHA1 with the fixed salt `"12345678"` and 10000 iterations —
but distinct passwords do not always yield distinct keys: the HMAC-SHA1
long-key preprocessing makes any password longer than 64 bytes derive the
same key as its 20-byte SHA-1 digest. -/
theorem claim_C4 (W : List Nat) :
    generateKeyFromPassword W = generateKeyFromPassword W
    ∧ (generateKeyFromPassword W).length = 32
    ∧ generateKeyFromPassword W
        = pbkdf2HmacSha1 W [49, 50, 51, 52, 53, 54, 55, 56] 10000 32 :=
  ⟨rfl, generateKeyFromPassword_length W, rfl⟩

/-- C4 counterexample: the 65-byte password `"aaa…a"` and the distinct
20-byte password `SHA1("aaa…a")` derive exactly the same key, refuting
`W1 ≠ W2 → generateKeyFromPassword W1 ≠ generateKeyFromPassword W2`:
HMAC-SHA1 hashes any key longer than its 64-byte block before use, so
PBKDF2 cannot tell the two passwords apart. -/
theorem claim_C4_counterexample :
    generateKeyFromPassword (List.replicate 65 97)
      = generateKeyFromPassword (sha1 (List.replicate 65 97))
    ∧ List.replicate 65 97 ≠ sha1 (List.replicate 65 97) := by
  have hlong : 64 < (List.replicate 65 97).length := by simp
  have hc : ∀ m, hmacSha1 (List.replicate 65 97) m
      = hmacSha1 (sha1 (List.replicate 65 97)) m :=
    hmacSha1_longKey _ hlong
  constructor
  · unfold generateKeyFromPassword
    exact pbkdf2_congr _ _ _ _ _ hc
  · intro h
    have hlenEq := congrArg List.length h
    rw [sha1_length] at hlenEq
    simp at hlenEq

/-- C7 (amended): the program prints usage and exits 1 exactly when the
parsed flags fail the code's validation: an unrecognized option, both or
neither of `-e`/`-d` present, or an empty final value for `-i`, `-o` or
`-p`. Duplicate occurrences of a flag are not by themselves rejected:
repeating `-e` or `-d` is idempotent and a repeated `-i`/`-o`/`-p` simply
overwrites the earlier value. -/
theorem claim_C7 (opts : List Opt) : mainArgCheck opts = specUsageExit opts :=
  mainArgCheck_eq_spec opts

/-- C7 counterexample: a duplicated `-e` flag together with well-formed
`-i`, `-o`, `-p` values is accepted (no usage exit), refuting the claim
that duplicated flags always cause the usage text and exit status 1. -/
theorem claim_C7_counterexample :
    mainArgCheck [Opt.e, Opt.e, Opt.i [97], Opt.o [98], Opt.p [99]] = false :=
  rfl

/-- C8: the output file is written only after the entire in-memory
transform has succeeded: if a `main` run ends in the write outcome, then
argument validation passed, the input file was readable, and the written
data is exactly the completed transform of the input under the derived key
(encryption in `-e` mode, a successful decryption otherwise); every error
path terminates before `writeFile`. -/
theorem claim_C8 (AESenc AESdec : List Nat → List Nat → List Nat)
    (opts : List Opt) (inputData : Option (List Nat)) (iv data : List Nat)
    (h : mainRun AESenc AESdec opts inputData iv = MainOutcome.wroteOutput data) :
    mainArgCheck opts = false
    ∧ ∃ fd, inputData = some fd ∧
        ((((parseOpts initArgs opts).getD initArgs).encrypt = true
            ∧ data = encryptDataWithIV AESenc fd
                (generateKeyFromPassword
                  ((parseOpts initArgs opts).getD initArgs).password) iv)
          ∨ (((parseOpts initArgs opts).getD initArgs).encrypt = false
            ∧ decryptDataWithIV AESdec fd
                (generateKeyFromPassword
                  ((parseOpts initArgs opts).getD initArgs).password)
              = DecOutcome.ok data)) := by
  cases inputData with
  | none =>
    simp only [mainRun] at h
    split at h
    · exact absurd h (by simp)
    · exact absurd h (by simp)
  | some fd =>
    simp only [mainRun] at h
    split at h
    · exact absurd h (by simp)
    · next hchk =>
      have hfalse : mainArgCheck opts = false := by
        cases hc : mainArgCheck opts
        · rfl
        · exact absurd hc hchk
      refine ⟨hfalse, fd, rfl, ?_⟩
      by_cases henc : ((parseOpts initArgs opts).getD initArgs).encrypt = true
      · rw [if_pos henc] at h
        left
        injection h with h'
        exact ⟨henc, h'.symm⟩
      · have hencf : ((parseOpts initArgs opts).getD initArgs).encrypt = false := by
          cases he : ((parseOpts initArgs opts).getD initArgs).encrypt
          · rfl
          · exact absurd he henc
        rw [if_neg henc] at h
        right
        cases hdec : decryptDataWithIV AESdec fd
            (generateKeyFromPassword ((parseOpts initArgs opts).getD initArgs).password) with
        | ok pt =>
          rw [hdec] at h
          injection h with h'
          refine ⟨hencf, ?_⟩
          rw [← h']
        | abortBadPadding =>
          rw [hdec] at h
          exact absurd h (by simp)
        | undefinedBehavior =>
          rw [hdec] at h
          exact absurd h (by simp)

/-- C8 witness: a concrete decrypt-mode run on a well-formed container
(identity block cipher) that ends in the write outcome, with the written
data the successful decryption of the input. -/
theorem claim_C8_witness :
    mainArgCheck [Opt.d, Opt.i [97], Opt.o [98], Opt.p [99]] = false
    ∧ ∃ fd, (some (List.replicate 16 0 ++ List.replicate 16 16) :
          Option (List Nat)) = some fd ∧
        ((((parseOpts initArgs [Opt.d, Opt.i [97], Opt.o [98], Opt.p [99]]).getD
              initArgs).encrypt = true
            ∧ ([] : List Nat) = encryptDataWithIV (fun _ b => b) fd
                (generateKeyFromPassword
                  ((parseOpts initArgs
                    [Opt.d, Opt.i [97], Opt.o [98], Opt.p [99]]).getD
                      initArgs).password) (List.replicate 16 0))
          ∨ (((parseOpts initArgs [Opt.d, Opt.i [97], Opt.o [98], Opt.p [99]]).getD
              initArgs).encrypt = false
            ∧ decryptDataWithIV (fun _ b => b) fd
                (generateKeyFromPassword
                  ((parseOpts initArgs
                    [Opt.d, Opt.i [97], Opt.o [98], Opt.p [99]]).getD
                      initArgs).password)
              = DecOutcome.ok ([] : List Nat))) :=
  claim_C8 (fun _ b => b) (fun _ b => b) [Opt.d, Opt.i [97], Opt.o [98], Opt.p [99]]
    (some (List.replicate 16 0 ++ List.replicate 16 16)) (List.replicate 16 0) []
    rfl

end PaziLW2
